import Mathlib

/-!
Verification of the ralph-loop-agent repository (src/ralph-loop-agent.ts).

The repository implements an iterative task-completion controller
(`RalphLoopAgent`) with a blocking variant `loop()` and a streaming variant
`stream()`.  We give a shallow embedding of both control loops.  The external
text-generation engine (the `generateText` / `streamText` calls of the `ai`
SDK) and the abort signal are modelled as a deterministic environment oracle:
`engine` maps the 0-based call number and the full call inputs to a completed
result, and `aborted` gives the value of `abortSignal.aborted` at the n-th
top-of-loop check.  The `while` loops are encoded with fuel; because
`iteration` increases by one exactly when the fuel decreases by one, the fuel
encoding is equivalent to the source's `iteration < maxIterations` tests.

Opaque configuration values (model handle, tools, sampling parameters, ...)
are modelled as natural numbers: only their presence and identity matter to
the claims.  Async suspension, lifecycle callbacks (`onIterationStart`,
`onIterationEnd`) and wall-clock timing have no effect on the data flow and
are omitted.  The run is instrumented with a list of per-call records
(`calls`) so that theorems can speak about every engine call actually made;
each record stores the conversation snapshot and the exact inputs passed to
the engine.
-/

/-- Message roles of `ModelMessage`. -/
inductive Role where
  | system
  | user
  | assistant
  | tool
deriving DecidableEq, Repr

/-- A conversation message.  The source's content payload (a list of typed
parts for user messages, opaque engine output otherwise) is flattened to a
single string; only the role and the text matter to the claims. -/
structure Message where
  role : Role
  content : String
deriving DecidableEq, Repr

/-- The completed result of one blocking engine call
(`GenerateTextResult`): the final text and the produced response messages
(`result.response.messages` in the source). -/
structure GenResult where
  text : String
  responseMessages : List Message
deriving DecidableEq, Repr, Inhabited

/-- Outcome of the caller-supplied verification predicate
(`VerifyCompletionResult`). -/
structure VerifyCompletionResult where
  complete : Bool
  reason : Option String
deriving DecidableEq, Repr

/-- Input record passed to the verification predicate. -/
structure VerifyCompletionInput where
  result : GenResult
  iteration : Nat
  allResults : List GenResult
  originalPrompt : String

/-- The `instructions` setting: a string, a single message, or a list of
messages. -/
inductive Instructions where
  | str (s : String)
  | message (m : Message)
  | messageList (ms : List Message)
deriving DecidableEq, Repr

/-- Stop condition for the outer loop.  The source recognizes
`{ type: 'iteration-count', count }`; any other stop-condition shape
(e.g. a function from the `ai` SDK) is modelled by `other`. -/
inductive StopCondition where
  | iterationCount (count : Nat)
  | other
deriving DecidableEq, Repr

/-- Creates a stop condition that stops after `count` iterations
(`iterationCountIs`). -/
def iterationCountIs (count : Nat) : StopCondition :=
  StopCondition.iterationCount count

/-- Agent settings (`RalphLoopAgentSettings`).  Sampling parameters, the
model handle, the tool set and similar payloads are opaque; they are modelled
as (optional) naturals because only presence and identity are relevant.
`toolStopWhen` holds the engine's internal step budget when configured;
the source substitutes `stepCountIs(20)` when it is absent. -/
structure RalphLoopAgentSettings where
  instructions : Option Instructions := none
  stopWhen : Option StopCondition := none
  toolStopWhen : Option Nat := none
  verifyCompletion : Option (VerifyCompletionInput → VerifyCompletionResult) := none
  model : Nat := 0
  tools : Option Nat := none
  toolChoice : Option Nat := none
  maxOutputTokens : Option Nat := none
  temperature : Option Nat := none
  topP : Option Nat := none
  topK : Option Nat := none
  presencePenalty : Option Nat := none
  frequencyPenalty : Option Nat := none
  stopSequences : Option Nat := none
  seed : Option Nat := none
  experimental_telemetry : Option Nat := none
  activeTools : Option Nat := none
  prepareStep : Option Nat := none
  experimental_repairToolCall : Option Nat := none
  providerOptions : Option Nat := none
  experimental_context : Option Nat := none

/-- The maximum number of iterations (the `maxIterations` getter):
the configured iteration count if `stopWhen` is an iteration-count
condition, else the default 10. -/
def maxIterations (s : RalphLoopAgentSettings) : Nat :=
  match s.stopWhen with
  | some (StopCondition.iterationCount count) => count
  | _ => 10

/-- `buildSystemMessages`: normalizes `instructions` into a list of system
messages.  The source's `if (!instructions)` guard treats the empty string as
absent (JS falsiness). -/
def buildSystemMessages (s : RalphLoopAgentSettings) : List Message :=
  match s.instructions with
  | none => []
  | some (Instructions.str t) =>
      if t = "" then [] else [{ role := Role.system, content := t }]
  | some (Instructions.message m) => [m]
  | some (Instructions.messageList ms) => ms

/-- The initial user message built from the prompt. -/
def initialUserMessage (prompt : String) : Message :=
  { role := Role.user, content := prompt }

/-- The fixed continuation directive appended for every iteration after the
first. -/
def continuationMessage : Message :=
  { role := Role.user
    content := "Continue working on the task. The previous attempt was not complete." }

/-- The user-role feedback message built from a verification reason. -/
def feedbackMessage (reason : String) : Message :=
  { role := Role.user, content := "Feedback: " ++ reason }

/-- Builds the outbound message list for one iteration: system messages,
the original-prompt message, the accumulated conversation, and the
continuation directive when `iteration > 1`. -/
def buildIterationMessages (sys : List Message) (initMsg : Message)
    (currentMessages : List Message) (iteration : Nat) : List Message :=
  let messages := sys ++ [initMsg] ++ currentMessages
  if iteration > 1 then messages ++ [continuationMessage] else messages

/-- The full set of inputs passed to one engine call.  `none` in an optional
field means the corresponding key was not supplied to the call at all (for
fields copied from the settings, an unset setting and an omitted key are
runtime-equivalent in the source).  The forwarded abort signal is part of the
environment, not of the inputs. -/
structure EngineCallInputs where
  model : Nat
  messages : List Message
  tools : Option Nat
  toolChoice : Option Nat
  stopWhen : Option Nat
  maxOutputTokens : Option Nat
  temperature : Option Nat
  topP : Option Nat
  topK : Option Nat
  presencePenalty : Option Nat
  frequencyPenalty : Option Nat
  stopSequences : Option Nat
  seed : Option Nat
  experimental_telemetry : Option Nat
  activeTools : Option Nat
  prepareStep : Option Nat
  experimental_repairToolCall : Option Nat
  providerOptions : Option Nat
  experimental_context : Option Nat
deriving DecidableEq, Repr

/-- Inputs of a blocking `generateText` call (lines 196-217 / 325-346 of the
source): every configured setting is forwarded and the engine's step budget
is supplied as `toolStopWhen ?? stepCountIs(20)`. -/
def blockingInputs (s : RalphLoopAgentSettings) (messages : List Message) :
    EngineCallInputs where
  model := s.model
  messages := messages
  tools := s.tools
  toolChoice := s.toolChoice
  stopWhen := some (s.toolStopWhen.getD 20)
  maxOutputTokens := s.maxOutputTokens
  temperature := s.temperature
  topP := s.topP
  topK := s.topK
  presencePenalty := s.presencePenalty
  frequencyPenalty := s.frequencyPenalty
  stopSequences := s.stopSequences
  seed := s.seed
  experimental_telemetry := s.experimental_telemetry
  activeTools := s.activeTools
  prepareStep := s.prepareStep
  experimental_repairToolCall := s.experimental_repairToolCall
  providerOptions := s.providerOptions
  experimental_context := s.experimental_context

/-- Inputs of the early-completion `streamText` call (lines 364-373 of the
source): model, messages, tools, toolChoice, the step budget
(`toolStopWhen ?? stepCountIs(20)`), maxOutputTokens and temperature; the
remaining sampling and experimental settings are not supplied. -/
def earlyStreamInputs (s : RalphLoopAgentSettings) (messages : List Message) :
    EngineCallInputs where
  model := s.model
  messages := messages
  tools := s.tools
  toolChoice := s.toolChoice
  stopWhen := some (s.toolStopWhen.getD 20)
  maxOutputTokens := s.maxOutputTokens
  temperature := s.temperature
  topP := none
  topK := none
  presencePenalty := none
  frequencyPenalty := none
  stopSequences := none
  seed := none
  experimental_telemetry := none
  activeTools := none
  prepareStep := none
  experimental_repairToolCall := none
  providerOptions := none
  experimental_context := none

/-- Inputs of the final-iteration `streamText` call (lines 405-426 of the
source): the same full field list as a blocking call, step budget included. -/
def finalStreamInputs (s : RalphLoopAgentSettings) (messages : List Message) :
    EngineCallInputs where
  model := s.model
  messages := messages
  tools := s.tools
  toolChoice := s.toolChoice
  stopWhen := some (s.toolStopWhen.getD 20)
  maxOutputTokens := s.maxOutputTokens
  temperature := s.temperature
  topP := s.topP
  topK := s.topK
  presencePenalty := s.presencePenalty
  frequencyPenalty := s.frequencyPenalty
  stopSequences := s.stopSequences
  seed := s.seed
  experimental_telemetry := s.experimental_telemetry
  activeTools := s.activeTools
  prepareStep := s.prepareStep
  experimental_repairToolCall := s.experimental_repairToolCall
  providerOptions := s.providerOptions
  experimental_context := s.experimental_context

/-- The environment: a deterministic oracle for the external engine and for
the abort signal.  `engine n inputs` is the completed result of the n-th
(0-based) blocking engine call; `aborted n` is the value of
`abortSignal.aborted` observed at the n-th top-of-loop check (n equals the
number of iterations completed at that point). -/
structure Env where
  engine : Nat → EngineCallInputs → GenResult
  aborted : Nat → Bool

/-- Why the loop stopped. -/
inductive CompletionReason where
  | verified
  | maxIterations
  | aborted
deriving DecidableEq, Repr, Inhabited

/-- Instrumentation record for one completed engine call: the conversation
snapshot (`currentMessages`) at the time the call's message list was built,
and the exact inputs passed to the engine. -/
structure CallRecord where
  conv : List Message
  inputs : EngineCallInputs
deriving DecidableEq, Repr

/-- Appends the feedback message derived from a verification reason, when
the reason is truthy (a non-empty string). -/
def appendFeedback (currentMessages : List Message) (reason : Option String) :
    List Message :=
  match reason with
  | some r => if r != "" then currentMessages ++ [feedbackMessage r] else currentMessages
  | none => currentMessages

/-- The state of `loop()` at exit of its `while` loop, plus the
instrumentation trace `calls`. -/
structure LoopFinal where
  allResults : List GenResult
  currentMessages : List Message
  iteration : Nat
  completionReason : CompletionReason
  reason : Option String
  calls : List CallRecord

/-- The body of `loop()`'s `while (iteration < maxIterations)` loop,
fuel-encoded (`fuel = maxIterations - iteration` throughout a run).  Each
pass checks the abort signal, builds the iteration's message list, performs
the blocking engine call, appends the result to `allResults` and the
response messages to the conversation, and runs the verification gate. -/
def loopGo (s : RalphLoopAgentSettings) (env : Env) (prompt : String)
    (sys : List Message) (initMsg : Message) :
    Nat → List GenResult → List CallRecord → List Message → Nat → LoopFinal
  | 0, allResults, calls, currentMessages, iteration =>
      { allResults := allResults, currentMessages := currentMessages
        iteration := iteration, completionReason := CompletionReason.maxIterations
        reason := none, calls := calls }
  | fuel + 1, allResults, calls, currentMessages, iteration =>
      if env.aborted iteration then
        { allResults := allResults, currentMessages := currentMessages
          iteration := iteration, completionReason := CompletionReason.aborted
          reason := none, calls := calls }
      else
        let messages := buildIterationMessages sys initMsg currentMessages (iteration + 1)
        let inputs := blockingInputs s messages
        let result := env.engine iteration inputs
        let allResults2 := allResults ++ [result]
        let currentMessages2 := currentMessages ++ result.responseMessages
        let calls2 := calls ++ [{ conv := currentMessages, inputs := inputs }]
        match s.verifyCompletion with
        | none =>
            loopGo s env prompt sys initMsg fuel allResults2 calls2 currentMessages2
              (iteration + 1)
        | some verify =>
            let verification := verify
              { result := result, iteration := iteration + 1
                allResults := allResults2, originalPrompt := prompt }
            if verification.complete then
              { allResults := allResults2, currentMessages := currentMessages2
                iteration := iteration + 1
                completionReason := CompletionReason.verified
                reason := verification.reason, calls := calls2 }
            else
              loopGo s env prompt sys initMsg fuel allResults2 calls2
                (appendFeedback currentMessages2 verification.reason) (iteration + 1)

/-- Runs the `while` loop of `loop()` from the initial state. -/
def loopRun (s : RalphLoopAgentSettings) (env : Env) (prompt : String) : LoopFinal :=
  loopGo s env prompt (buildSystemMessages s) (initialUserMessage prompt)
    (maxIterations s) [] [] [] 0

/-- The value returned by `loop()` (`RalphLoopAgentResult`). -/
structure RalphLoopAgentResult where
  text : String
  iterations : Nat
  completionReason : CompletionReason
  reason : Option String
  result : GenResult
  allResults : List GenResult
deriving DecidableEq, Repr, Inhabited

/-- `loop()`: runs the iterations and packages the final result from the
last element of `allResults`.  When `allResults` is empty the source reads
`.text` of `undefined` and throws a TypeError; this failure is modelled by
`none`. -/
def loop (s : RalphLoopAgentSettings) (env : Env) (prompt : String) :
    Option RalphLoopAgentResult :=
  let fin := loopRun s env prompt
  match fin.allResults.getLast? with
  | none => none
  | some finalResult =>
      some { text := finalResult.text, iterations := fin.iteration
             completionReason := fin.completionReason, reason := fin.reason
             result := finalResult, allResults := fin.allResults }

/-- Result of the blocking phase of `stream()`: either verification
completed early (carrying the inputs of the streaming call issued from
inside the loop), or the loop exited (budget reached or abort observed). -/
inductive StreamPhase where
  | earlyStream (allResults : List GenResult) (calls : List CallRecord)
      (currentMessages : List Message) (iteration : Nat) (inputs : EngineCallInputs)
  | budgetReached (allResults : List GenResult) (calls : List CallRecord)
      (currentMessages : List Message) (iteration : Nat)

/-- The body of `stream()`'s `while (iteration < maxIterations - 1)` loop,
fuel-encoded.  Identical to `loopGo` except that a completing verification
returns the early-completion streaming call (built from the conversation
including the just-appended response messages, with no continuation
directive) instead of a result record. -/
def streamGo (s : RalphLoopAgentSettings) (env : Env) (prompt : String)
    (sys : List Message) (initMsg : Message) :
    Nat → List GenResult → List CallRecord → List Message → Nat → StreamPhase
  | 0, allResults, calls, currentMessages, iteration =>
      StreamPhase.budgetReached allResults calls currentMessages iteration
  | fuel + 1, allResults, calls, currentMessages, iteration =>
      if env.aborted iteration then
        StreamPhase.budgetReached allResults calls currentMessages iteration
      else
        let messages := buildIterationMessages sys initMsg currentMessages (iteration + 1)
        let inputs := blockingInputs s messages
        let result := env.engine iteration inputs
        let allResults2 := allResults ++ [result]
        let currentMessages2 := currentMessages ++ result.responseMessages
        let calls2 := calls ++ [{ conv := currentMessages, inputs := inputs }]
        match s.verifyCompletion with
        | none =>
            streamGo s env prompt sys initMsg fuel allResults2 calls2 currentMessages2
              (iteration + 1)
        | some verify =>
            let verification := verify
              { result := result, iteration := iteration + 1
                allResults := allResults2, originalPrompt := prompt }
            if verification.complete then
              StreamPhase.earlyStream allResults2 calls2 currentMessages2 (iteration + 1)
                (earlyStreamInputs s (sys ++ [initMsg] ++ currentMessages2))
            else
              streamGo s env prompt sys initMsg fuel allResults2 calls2
                (appendFeedback currentMessages2 verification.reason) (iteration + 1)

/-- One engine interaction of a `stream()` invocation, in order. -/
inductive StreamEvent where
  | blockingCall (inputs : EngineCallInputs)
  | streamingCall (inputs : EngineCallInputs)
deriving DecidableEq, Repr

/-- Whether a stream event is the streaming call. -/
def StreamEvent.isStreaming : StreamEvent → Bool
  | StreamEvent.streamingCall _ => true
  | StreamEvent.blockingCall _ => false

/-- Instrumented outcome of a `stream()` invocation.  The value the source
returns to the caller is the live stream handle of the single streaming
call, whose inputs are `streamInputs`; everything else records what the
invocation did on the way there.  `early` is true when the streaming call
was issued from inside the loop after a completing verification;
`iterations` is the final value of the iteration counter; `trace` lists
every engine interaction in order. -/
structure StreamOutput where
  allResults : List GenResult
  calls : List CallRecord
  finalConv : List Message
  iterations : Nat
  early : Bool
  streamInputs : EngineCallInputs
  trace : List StreamEvent

/-- `stream()`: runs blocking iterations up to `maxIterations - 1`, then
issues exactly one streaming engine call — from inside the loop when
verification completes early, otherwise for the final iteration (with the
same message-construction rule as blocking mode). -/
def stream (s : RalphLoopAgentSettings) (env : Env) (prompt : String) :
    StreamOutput :=
  let sys := buildSystemMessages s
  let initMsg := initialUserMessage prompt
  match streamGo s env prompt sys initMsg (maxIterations s - 1) [] [] [] 0 with
  | StreamPhase.earlyStream allResults calls currentMessages iteration inputs =>
      { allResults := allResults, calls := calls, finalConv := currentMessages
        iterations := iteration, early := true, streamInputs := inputs
        trace := calls.map (fun c => StreamEvent.blockingCall c.inputs)
          ++ [StreamEvent.streamingCall inputs] }
  | StreamPhase.budgetReached allResults calls currentMessages iteration =>
      let finalIteration := iteration + 1
      let finalMessages := buildIterationMessages sys initMsg currentMessages finalIteration
      let inputs := finalStreamInputs s finalMessages
      { allResults := allResults, calls := calls, finalConv := currentMessages
        iterations := finalIteration, early := false, streamInputs := inputs
        trace := calls.map (fun c => StreamEvent.blockingCall c.inputs)
          ++ [StreamEvent.streamingCall inputs] }

/-- The streaming-call inputs as the specification describes them
("same inputs minus the step budget"): identical to a blocking call's
inputs except that the step budget is not supplied.  Stated from the spec's
words, for comparison with the inputs the source actually builds. -/
def specStreamInputs (s : RalphLoopAgentSettings) (messages : List Message) :
    EngineCallInputs :=
  { blockingInputs s messages with stopWhen := none }

/-- A fixed engine oracle used in concrete witness runs. -/
def exEngine : Nat → EngineCallInputs → GenResult :=
  fun _ _ => { text := "ok", responseMessages := [{ role := Role.assistant, content := "ok" }] }

/-- Environment in which the abort signal is never set. -/
def exEnv : Env := { engine := exEngine, aborted := fun _ => false }

/-- Environment in which the abort signal is set from the start. -/
def exEnvAborted : Env := { engine := exEngine, aborted := fun _ => true }

/-- Concrete settings with an iteration budget of 3 and no verification
predicate. -/
def exSettings : RalphLoopAgentSettings :=
  { instructions := some (Instructions.str "Be helpful.")
    stopWhen := some (iterationCountIs 3) }

/-- A concrete verification predicate that completes on iteration 2 with
reason "done" and otherwise asks to keep going. -/
def exVerify : VerifyCompletionInput → VerifyCompletionResult :=
  fun inp =>
    if inp.iteration = 2 then { complete := true, reason := some "done" }
    else { complete := false, reason := some "keep going" }

/-- Concrete settings with an iteration budget of 5 and `exVerify` as the
verification predicate. -/
def exVerifySettings : RalphLoopAgentSettings :=
  { instructions := some (Instructions.str "Be helpful.")
    stopWhen := some (iterationCountIs 5)
    verifyCompletion := some exVerify
    topP := some 7 }

/-- The accumulated results of a stream phase (either constructor). -/
def StreamPhase.allResults : StreamPhase → List GenResult
  | StreamPhase.earlyStream rs _ _ _ _ => rs
  | StreamPhase.budgetReached rs _ _ _ => rs

/-- The call records of a stream phase (either constructor). -/
def StreamPhase.calls : StreamPhase → List CallRecord
  | StreamPhase.earlyStream _ cls _ _ _ => cls
  | StreamPhase.budgetReached _ cls _ _ => cls

/-- The conversation state of a stream phase (either constructor). -/
def StreamPhase.currentMessages : StreamPhase → List Message
  | StreamPhase.earlyStream _ _ cur _ _ => cur
  | StreamPhase.budgetReached _ _ cur _ => cur

/-- The iteration counter of a stream phase (either constructor). -/
def StreamPhase.iteration : StreamPhase → Nat
  | StreamPhase.earlyStream _ _ _ it _ => it
  | StreamPhase.budgetReached _ _ _ it => it

/-! ### Unfolding lemmas for the loop bodies -/

theorem loopGo_zero (s : RalphLoopAgentSettings) (env : Env) (prompt : String)
    (sys : List Message) (initMsg : Message) (rs : List GenResult)
    (cls : List CallRecord) (cur : List Message) (it : Nat) :
    loopGo s env prompt sys initMsg 0 rs cls cur it =
      { allResults := rs, currentMessages := cur, iteration := it
        completionReason := CompletionReason.maxIterations, reason := none
        calls := cls } := rfl

theorem loopGo_abort (s : RalphLoopAgentSettings) (env : Env) (prompt : String)
    (sys : List Message) (initMsg : Message) (m : Nat) (rs : List GenResult)
    (cls : List CallRecord) (cur : List Message) (it : Nat)
    (hab : env.aborted it = true) :
    loopGo s env prompt sys initMsg (m + 1) rs cls cur it =
      { allResults := rs, currentMessages := cur, iteration := it
        completionReason := CompletionReason.aborted, reason := none
        calls := cls } := by
  simp [loopGo, hab]

theorem loopGo_step_none (s : RalphLoopAgentSettings) (env : Env) (prompt : String)
    (sys : List Message) (initMsg : Message) (m : Nat) (rs : List GenResult)
    (cls : List CallRecord) (cur : List Message) (it : Nat)
    (inp : EngineCallInputs) (res : GenResult)
    (hinp : inp = blockingInputs s (buildIterationMessages sys initMsg cur (it + 1)))
    (hres : res = env.engine it inp)
    (hab : env.aborted it = false) (hv : s.verifyCompletion = none) :
    loopGo s env prompt sys initMsg (m + 1) rs cls cur it =
      loopGo s env prompt sys initMsg m (rs ++ [res])
        (cls ++ [{ conv := cur, inputs := inp }])
        (cur ++ res.responseMessages) (it + 1) := by
  subst hinp; subst hres; simp [loopGo, hab, hv]

theorem loopGo_step_verified (s : RalphLoopAgentSettings) (env : Env) (prompt : String)
    (sys : List Message) (initMsg : Message) (m : Nat) (rs : List GenResult)
    (cls : List CallRecord) (cur : List Message) (it : Nat)
    (v : VerifyCompletionInput → VerifyCompletionResult)
    (inp : EngineCallInputs) (res : GenResult)
    (hinp : inp = blockingInputs s (buildIterationMessages sys initMsg cur (it + 1)))
    (hres : res = env.engine it inp)
    (hab : env.aborted it = false) (hv : s.verifyCompletion = some v)
    (hc : (v { result := res, iteration := it + 1, allResults := rs ++ [res]
               originalPrompt := prompt }).complete = true) :
    loopGo s env prompt sys initMsg (m + 1) rs cls cur it =
      { allResults := rs ++ [res], currentMessages := cur ++ res.responseMessages
        iteration := it + 1, completionReason := CompletionReason.verified
        reason := (v { result := res, iteration := it + 1, allResults := rs ++ [res]
                       originalPrompt := prompt }).reason
        calls := cls ++ [{ conv := cur, inputs := inp }] } := by
  subst hinp; subst hres; simp [loopGo, hab, hv, hc]

theorem loopGo_step_continue (s : RalphLoopAgentSettings) (env : Env) (prompt : String)
    (sys : List Message) (initMsg : Message) (m : Nat) (rs : List GenResult)
    (cls : List CallRecord) (cur : List Message) (it : Nat)
    (v : VerifyCompletionInput → VerifyCompletionResult)
    (inp : EngineCallInputs) (res : GenResult)
    (hinp : inp = blockingInputs s (buildIterationMessages sys initMsg cur (it + 1)))
    (hres : res = env.engine it inp)
    (hab : env.aborted it = false) (hv : s.verifyCompletion = some v)
    (hc : (v { result := res, iteration := it + 1, allResults := rs ++ [res]
               originalPrompt := prompt }).complete = false) :
    loopGo s env prompt sys initMsg (m + 1) rs cls cur it =
      loopGo s env prompt sys initMsg m (rs ++ [res])
        (cls ++ [{ conv := cur, inputs := inp }])
        (appendFeedback (cur ++ res.responseMessages)
          (v { result := res, iteration := it + 1, allResults := rs ++ [res]
               originalPrompt := prompt }).reason)
        (it + 1) := by
  subst hinp; subst hres; simp [loopGo, hab, hv, hc]

/-- Master structural lemma for the blocking loop: from any state, the loop
only appends to `allResults` and to `calls`, one result per call, at most
`fuel` new calls, and the iteration counter advances by exactly the number
of new calls. -/
theorem loopGo_extends (s : RalphLoopAgentSettings) (env : Env) (prompt : String)
    (sys : List Message) (initMsg : Message) (fuel : Nat) :
    ∀ rs cls cur it,
      ∃ ars acs,
        (loopGo s env prompt sys initMsg fuel rs cls cur it).allResults = rs ++ ars ∧
        (loopGo s env prompt sys initMsg fuel rs cls cur it).calls = cls ++ acs ∧
        ars.length = acs.length ∧ acs.length ≤ fuel ∧
        (loopGo s env prompt sys initMsg fuel rs cls cur it).iteration =
          it + acs.length := by
  induction fuel with
  | zero =>
      intro rs cls cur it
      exact ⟨[], [], by simp [loopGo_zero], by simp [loopGo_zero], rfl,
        Nat.le_refl 0, by simp [loopGo_zero]⟩
  | succ m ih =>
      intro rs cls cur it
      cases hab : env.aborted it with
      | true =>
          exact ⟨[], [], by simp [loopGo_abort _ _ _ _ _ _ _ _ _ _ hab],
            by simp [loopGo_abort _ _ _ _ _ _ _ _ _ _ hab], rfl, Nat.zero_le _,
            by simp [loopGo_abort _ _ _ _ _ _ _ _ _ _ hab]⟩
      | false =>
          set inp := blockingInputs s (buildIterationMessages sys initMsg cur (it + 1))
            with hinp
          set res := env.engine it inp with hres
          rcases hv : s.verifyCompletion with _ | v
          · rw [loopGo_step_none s env prompt sys initMsg m rs cls cur it inp res hinp
              hres hab hv]
            obtain ⟨ars, acs, h1, h2, h3, h4, h5⟩ :=
              ih (rs ++ [res]) (cls ++ [{ conv := cur, inputs := inp }])
                (cur ++ res.responseMessages) (it + 1)
            refine ⟨res :: ars, { conv := cur, inputs := inp } :: acs, ?_, ?_, ?_, ?_, ?_⟩
            · rw [h1]; simp
            · rw [h2]; simp
            · simpa using h3
            · simp only [List.length_cons]; omega
            · rw [h5]; simp only [List.length_cons]; omega
          · cases hc : (v { result := res, iteration := it + 1, allResults := rs ++ [res]
                            originalPrompt := prompt }).complete with
            | true =>
                rw [loopGo_step_verified s env prompt sys initMsg m rs cls cur it v inp
                  res hinp hres hab hv hc]
                exact ⟨[res], [{ conv := cur, inputs := inp }], rfl, rfl, rfl,
                  by simp only [List.length_singleton]; omega, by simp⟩
            | false =>
                rw [loopGo_step_continue s env prompt sys initMsg m rs cls cur it v inp
                  res hinp hres hab hv hc]
                obtain ⟨ars, acs, h1, h2, h3, h4, h5⟩ :=
                  ih (rs ++ [res]) (cls ++ [{ conv := cur, inputs := inp }])
                    (appendFeedback (cur ++ res.responseMessages)
                      (v { result := res, iteration := it + 1, allResults := rs ++ [res]
                           originalPrompt := prompt }).reason)
                    (it + 1)
                refine ⟨res :: ars, { conv := cur, inputs := inp } :: acs, ?_, ?_, ?_, ?_, ?_⟩
                · rw [h1]; simp
                · rw [h2]; simp
                · simpa using h3
                · simp only [List.length_cons]; omega
                · rw [h5]; simp only [List.length_cons]; omega

theorem streamGo_zero (s : RalphLoopAgentSettings) (env : Env) (prompt : String)
    (sys : List Message) (initMsg : Message) (rs : List GenResult)
    (cls : List CallRecord) (cur : List Message) (it : Nat) :
    streamGo s env prompt sys initMsg 0 rs cls cur it =
      StreamPhase.budgetReached rs cls cur it := rfl

theorem streamGo_abort (s : RalphLoopAgentSettings) (env : Env) (prompt : String)
    (sys : List Message) (initMsg : Message) (m : Nat) (rs : List GenResult)
    (cls : List CallRecord) (cur : List Message) (it : Nat)
    (hab : env.aborted it = true) :
    streamGo s env prompt sys initMsg (m + 1) rs cls cur it =
      StreamPhase.budgetReached rs cls cur it := by
  simp [streamGo, hab]

theorem streamGo_step_none (s : RalphLoopAgentSettings) (env : Env) (prompt : String)
    (sys : List Message) (initMsg : Message) (m : Nat) (rs : List GenResult)
    (cls : List CallRecord) (cur : List Message) (it : Nat)
    (inp : EngineCallInputs) (res : GenResult)
    (hinp : inp = blockingInputs s (buildIterationMessages sys initMsg cur (it + 1)))
    (hres : res = env.engine it inp)
    (hab : env.aborted it = false) (hv : s.verifyCompletion = none) :
    streamGo s env prompt sys initMsg (m + 1) rs cls cur it =
      streamGo s env prompt sys initMsg m (rs ++ [res])
        (cls ++ [{ conv := cur, inputs := inp }])
        (cur ++ res.responseMessages) (it + 1) := by
  subst hinp; subst hres; simp [streamGo, hab, hv]

theorem streamGo_step_early (s : RalphLoopAgentSettings) (env : Env) (prompt : String)
    (sys : List Message) (initMsg : Message) (m : Nat) (rs : List GenResult)
    (cls : List CallRecord) (cur : List Message) (it : Nat)
    (v : VerifyCompletionInput → VerifyCompletionResult)
    (inp : EngineCallInputs) (res : GenResult)
    (hinp : inp = blockingInputs s (buildIterationMessages sys initMsg cur (it + 1)))
    (hres : res = env.engine it inp)
    (hab : env.aborted it = false) (hv : s.verifyCompletion = some v)
    (hc : (v { result := res, iteration := it + 1, allResults := rs ++ [res]
               originalPrompt := prompt }).complete = true) :
    streamGo s env prompt sys initMsg (m + 1) rs cls cur it =
      StreamPhase.earlyStream (rs ++ [res]) (cls ++ [{ conv := cur, inputs := inp }])
        (cur ++ res.responseMessages) (it + 1)
        (earlyStreamInputs s (sys ++ [initMsg] ++ (cur ++ res.responseMessages))) := by
  subst hinp; subst hres; simp [streamGo, hab, hv, hc]

theorem streamGo_step_continue (s : RalphLoopAgentSettings) (env : Env) (prompt : String)
    (sys : List Message) (initMsg : Message) (m : Nat) (rs : List GenResult)
    (cls : List CallRecord) (cur : List Message) (it : Nat)
    (v : VerifyCompletionInput → VerifyCompletionResult)
    (inp : EngineCallInputs) (res : GenResult)
    (hinp : inp = blockingInputs s (buildIterationMessages sys initMsg cur (it + 1)))
    (hres : res = env.engine it inp)
    (hab : env.aborted it = false) (hv : s.verifyCompletion = some v)
    (hc : (v { result := res, iteration := it + 1, allResults := rs ++ [res]
               originalPrompt := prompt }).complete = false) :
    streamGo s env prompt sys initMsg (m + 1) rs cls cur it =
      streamGo s env prompt sys initMsg m (rs ++ [res])
        (cls ++ [{ conv := cur, inputs := inp }])
        (appendFeedback (cur ++ res.responseMessages)
          (v { result := res, iteration := it + 1, allResults := rs ++ [res]
               originalPrompt := prompt }).reason)
        (it + 1) := by
  subst hinp; subst hres; simp [streamGo, hab, hv, hc]

/-- Master structural lemma for the blocking phase of `stream()`: from any
state, only appends to `allResults` and `calls`, one result per call, at
most `fuel` new calls, and the iteration counter advances by the number of
new calls. -/
theorem streamGo_extends (s : RalphLoopAgentSettings) (env : Env) (prompt : String)
    (sys : List Message) (initMsg : Message) (fuel : Nat) :
    ∀ rs cls cur it,
      ∃ ars acs,
        (streamGo s env prompt sys initMsg fuel rs cls cur it).allResults = rs ++ ars ∧
        (streamGo s env prompt sys initMsg fuel rs cls cur it).calls = cls ++ acs ∧
        ars.length = acs.length ∧ acs.length ≤ fuel ∧
        (streamGo s env prompt sys initMsg fuel rs cls cur it).iteration =
          it + acs.length := by
  induction fuel with
  | zero =>
      intro rs cls cur it
      exact ⟨[], [], by simp [streamGo_zero, StreamPhase.allResults],
        by simp [streamGo_zero, StreamPhase.calls], rfl, Nat.le_refl 0,
        by simp [streamGo_zero, StreamPhase.iteration]⟩
  | succ m ih =>
      intro rs cls cur it
      cases hab : env.aborted it with
      | true =>
          exact ⟨[], [],
            by simp [streamGo_abort _ _ _ _ _ _ _ _ _ _ hab, StreamPhase.allResults],
            by simp [streamGo_abort _ _ _ _ _ _ _ _ _ _ hab, StreamPhase.calls], rfl,
            Nat.zero_le _,
            by simp [streamGo_abort _ _ _ _ _ _ _ _ _ _ hab, StreamPhase.iteration]⟩
      | false =>
          set inp := blockingInputs s (buildIterationMessages sys initMsg cur (it + 1))
            with hinp
          set res := env.engine it inp with hres
          rcases hv : s.verifyCompletion with _ | v
          · rw [streamGo_step_none s env prompt sys initMsg m rs cls cur it inp res hinp
              hres hab hv]
            obtain ⟨ars, acs, h1, h2, h3, h4, h5⟩ :=
              ih (rs ++ [res]) (cls ++ [{ conv := cur, inputs := inp }])
                (cur ++ res.responseMessages) (it + 1)
            refine ⟨res :: ars, { conv := cur, inputs := inp } :: acs, ?_, ?_, ?_, ?_, ?_⟩
            · rw [h1]; simp
            · rw [h2]; simp
            · simpa using h3
            · simp only [List.length_cons]; omega
            · rw [h5]; simp only [List.length_cons]; omega
          · cases hc : (v { result := res, iteration := it + 1, allResults := rs ++ [res]
                            originalPrompt := prompt }).complete with
            | true =>
                rw [streamGo_step_early s env prompt sys initMsg m rs cls cur it v inp
                  res hinp hres hab hv hc]
                exact ⟨[res], [{ conv := cur, inputs := inp }],
                  by simp [StreamPhase.allResults], by simp [StreamPhase.calls], rfl,
                  by simp only [List.length_singleton]; omega,
                  by simp [StreamPhase.iteration]⟩
            | false =>
                rw [streamGo_step_continue s env prompt sys initMsg m rs cls cur it v inp
                  res hinp hres hab hv hc]
                obtain ⟨ars, acs, h1, h2, h3, h4, h5⟩ :=
                  ih (rs ++ [res]) (cls ++ [{ conv := cur, inputs := inp }])
                    (appendFeedback (cur ++ res.responseMessages)
                      (v { result := res, iteration := it + 1, allResults := rs ++ [res]
                           originalPrompt := prompt }).reason)
                    (it + 1)
                refine ⟨res :: ars, { conv := cur, inputs := inp } :: acs, ?_, ?_, ?_, ?_, ?_⟩
                · rw [h1]; simp
                · rw [h2]; simp
                · simpa using h3
                · simp only [List.length_cons]; omega
                · rw [h5]; simp only [List.length_cons]; omega

/-- Closed form of the per-iteration message list: system messages, the
original-prompt message, the accumulated conversation, then the continuation
directive exactly when the iteration number exceeds 1. -/
theorem buildIterationMessages_eq (sys : List Message) (initMsg : Message)
    (cur : List Message) (it : Nat) :
    buildIterationMessages sys initMsg cur it =
      sys ++ [initMsg] ++ cur ++ (if 1 < it then [continuationMessage] else []) := by
  simp only [buildIterationMessages, gt_iff_lt]
  split
  · next h => simp [h]
  · next h => simp [h]

/-- Index alignment for the blocking loop: starting from aligned
accumulators, the i-th element of `allResults` is the engine's result for
the i-th recorded call. -/
theorem loopGo_results (s : RalphLoopAgentSettings) (env : Env) (prompt : String)
    (sys : List Message) (initMsg : Message) (fuel : Nat) :
    ∀ rs cls cur it,
      rs.length = it → cls.length = it →
      (∀ j, rs[j]? = (cls[j]?).map (fun c => env.engine j c.inputs)) →
      ∀ i, (loopGo s env prompt sys initMsg fuel rs cls cur it).allResults[i]? =
        ((loopGo s env prompt sys initMsg fuel rs cls cur it).calls[i]?).map
          (fun c => env.engine i c.inputs) := by
  induction fuel with
  | zero =>
      intro rs cls cur it h1 h2 h3 i
      simpa [loopGo_zero] using h3 i
  | succ m ih =>
      intro rs cls cur it h1 h2 h3 i
      cases hab : env.aborted it with
      | true =>
          simpa [loopGo_abort _ _ _ _ _ _ _ _ _ _ hab] using h3 i
      | false =>
          set inp := blockingInputs s (buildIterationMessages sys initMsg cur (it + 1))
            with hinp
          set res := env.engine it inp with hres
          have hnew : ∀ j, (rs ++ [res])[j]? =
              ((cls ++ [{ conv := cur, inputs := inp }])[j]?).map
                (fun c => env.engine j c.inputs) := by
            intro j
            by_cases hj : j < it
            · rw [List.getElem?_append, List.getElem?_append, if_pos (by omega),
                if_pos (by omega)]
              exact h3 j
            · by_cases hj2 : j = it
              · rw [List.getElem?_append_right (by omega),
                  List.getElem?_append_right (by omega), h1, h2, hj2]
                simp [hres, hj2]
              · rw [List.getElem?_append_right (by omega),
                  List.getElem?_append_right (by omega), h1, h2]
                rw [List.getElem?_eq_none (by simp; omega),
                  List.getElem?_eq_none (by simp; omega)]
                rfl
          have hlen1 : (rs ++ [res]).length = it + 1 := by simp [h1]
          have hlen2 : (cls ++ [({ conv := cur, inputs := inp } : CallRecord)]).length =
              it + 1 := by
            simp [h2]
          rcases hv : s.verifyCompletion with _ | v
          · rw [loopGo_step_none s env prompt sys initMsg m rs cls cur it inp res hinp
              hres hab hv]
            exact ih _ _ _ _ hlen1 hlen2 hnew i
          · cases hc : (v { result := res, iteration := it + 1, allResults := rs ++ [res]
                            originalPrompt := prompt }).complete with
            | true =>
                rw [loopGo_step_verified s env prompt sys initMsg m rs cls cur it v inp
                  res hinp hres hab hv hc]
                exact hnew i
            | false =>
                rw [loopGo_step_continue s env prompt sys initMsg m rs cls cur it v inp
                  res hinp hres hab hv hc]
                exact ih _ _ _ _ hlen1 hlen2 hnew i

/-- Shape invariant for the recorded calls of the blocking loop: every
call's outbound messages are the system messages, the original-prompt
message, the conversation snapshot, and a trailing continuation directive
exactly when the call is not the first; the first call's snapshot is
empty. -/
theorem loopGo_calls_shape (s : RalphLoopAgentSettings) (env : Env) (prompt : String)
    (sys : List Message) (initMsg : Message) (fuel : Nat) :
    ∀ rs cls cur it,
      cls.length = it →
      (cls = [] → cur = []) →
      (∀ i c, cls[i]? = some c →
        c.inputs.messages =
          sys ++ [initMsg] ++ c.conv ++ (if 0 < i then [continuationMessage] else []) ∧
        (i = 0 → c.conv = [])) →
      ∀ i c, (loopGo s env prompt sys initMsg fuel rs cls cur it).calls[i]? = some c →
        c.inputs.messages =
          sys ++ [initMsg] ++ c.conv ++ (if 0 < i then [continuationMessage] else []) ∧
        (i = 0 → c.conv = []) := by
  induction fuel with
  | zero =>
      intro rs cls cur it h1 h2 h3
      simpa [loopGo_zero] using h3
  | succ m ih =>
      intro rs cls cur it h1 h2 h3
      cases hab : env.aborted it with
      | true =>
          simpa [loopGo_abort _ _ _ _ _ _ _ _ _ _ hab] using h3
      | false =>
          set inp := blockingInputs s (buildIterationMessages sys initMsg cur (it + 1))
            with hinp
          set res := env.engine it inp with hres
          have hnew : ∀ i c, (cls ++ [({ conv := cur, inputs := inp } : CallRecord)])[i]? =
              some c →
              c.inputs.messages =
                sys ++ [initMsg] ++ c.conv ++
                  (if 0 < i then [continuationMessage] else []) ∧
              (i = 0 → c.conv = []) := by
            intro i c hc
            by_cases hi : i < it
            · rw [List.getElem?_append, if_pos (by omega)] at hc
              exact h3 i c hc
            · by_cases hi2 : i = it
              · rw [List.getElem?_append_right (by omega), h1, hi2] at hc
                simp only [Nat.sub_self, List.getElem?_cons_zero, Option.some.injEq] at hc
                subst hc
                constructor
                · show inp.messages = _
                  rw [hinp]
                  show buildIterationMessages sys initMsg cur (it + 1) = _
                  rw [buildIterationMessages_eq, hi2]
                  simp [show (1 < it + 1) ↔ 0 < it from by omega]
                · intro hi0
                  show cur = []
                  exact h2 (by rw [← List.length_eq_zero, h1, ← hi2, hi0])
              · rw [List.getElem?_append_right (by omega), h1] at hc
                rw [List.getElem?_eq_none (by simp; omega)] at hc
                cases hc
          have hlen2 : (cls ++ [({ conv := cur, inputs := inp } : CallRecord)]).length =
              it + 1 := by simp [h1]
          have hne : cls ++ [({ conv := cur, inputs := inp } : CallRecord)] = [] →
              (cur ++ res.responseMessages) = [] := by simp
          rcases hv : s.verifyCompletion with _ | v
          · rw [loopGo_step_none s env prompt sys initMsg m rs cls cur it inp res hinp
              hres hab hv]
            exact ih _ _ _ _ hlen2 hne hnew
          · cases hc : (v { result := res, iteration := it + 1, allResults := rs ++ [res]
                            originalPrompt := prompt }).complete with
            | true =>
                rw [loopGo_step_verified s env prompt sys initMsg m rs cls cur it v inp
                  res hinp hres hab hv hc]
                exact hnew
            | false =>
                rw [loopGo_step_continue s env prompt sys initMsg m rs cls cur it v inp
                  res hinp hres hab hv hc]
                exact ih _ _ _ _ hlen2 (by simp) hnew

/-- Shape invariant for the recorded blocking calls of `stream()`: same as
for the blocking loop. -/
theorem streamGo_calls_shape (s : RalphLoopAgentSettings) (env : Env) (prompt : String)
    (sys : List Message) (initMsg : Message) (fuel : Nat) :
    ∀ rs cls cur it,
      cls.length = it →
      (cls = [] → cur = []) →
      (∀ i c, cls[i]? = some c →
        c.inputs.messages =
          sys ++ [initMsg] ++ c.conv ++ (if 0 < i then [continuationMessage] else []) ∧
        (i = 0 → c.conv = [])) →
      ∀ i c, (streamGo s env prompt sys initMsg fuel rs cls cur it).calls[i]? = some c →
        c.inputs.messages =
          sys ++ [initMsg] ++ c.conv ++ (if 0 < i then [continuationMessage] else []) ∧
        (i = 0 → c.conv = []) := by
  induction fuel with
  | zero =>
      intro rs cls cur it h1 h2 h3
      simpa [streamGo_zero, StreamPhase.calls] using h3
  | succ m ih =>
      intro rs cls cur it h1 h2 h3
      cases hab : env.aborted it with
      | true =>
          simpa [streamGo_abort _ _ _ _ _ _ _ _ _ _ hab, StreamPhase.calls] using h3
      | false =>
          set inp := blockingInputs s (buildIterationMessages sys initMsg cur (it + 1))
            with hinp
          set res := env.engine it inp with hres
          have hnew : ∀ i c, (cls ++ [({ conv := cur, inputs := inp } : CallRecord)])[i]? =
              some c →
              c.inputs.messages =
                sys ++ [initMsg] ++ c.conv ++
                  (if 0 < i then [continuationMessage] else []) ∧
              (i = 0 → c.conv = []) := by
            intro i c hc
            by_cases hi : i < it
            · rw [List.getElem?_append, if_pos (by omega)] at hc
              exact h3 i c hc
            · by_cases hi2 : i = it
              · rw [List.getElem?_append_right (by omega), h1, hi2] at hc
                simp only [Nat.sub_self, List.getElem?_cons_zero, Option.some.injEq] at hc
                subst hc
                constructor
                · show inp.messages = _
                  rw [hinp]
                  show buildIterationMessages sys initMsg cur (it + 1) = _
                  rw [buildIterationMessages_eq, hi2]
                  simp [show (1 < it + 1) ↔ 0 < it from by omega]
                · intro hi0
                  show cur = []
                  exact h2 (by rw [← List.length_eq_zero, h1, ← hi2, hi0])
              · rw [List.getElem?_append_right (by omega), h1] at hc
                rw [List.getElem?_eq_none (by simp; omega)] at hc
                cases hc
          have hlen2 : (cls ++ [({ conv := cur, inputs := inp } : CallRecord)]).length =
              it + 1 := by simp [h1]
          rcases hv : s.verifyCompletion with _ | v
          · rw [streamGo_step_none s env prompt sys initMsg m rs cls cur it inp res hinp
              hres hab hv]
            exact ih _ _ _ _ hlen2 (by simp) hnew
          · cases hc : (v { result := res, iteration := it + 1, allResults := rs ++ [res]
                            originalPrompt := prompt }).complete with
            | true =>
                rw [streamGo_step_early s env prompt sys initMsg m rs cls cur it v inp
                  res hinp hres hab hv hc]
                exact hnew
            | false =>
                rw [streamGo_step_continue s env prompt sys initMsg m rs cls cur it v inp
                  res hinp hres hab hv hc]
                exact ih _ _ _ _ hlen2 (by simp) hnew

/-- Packaging lemma: when the run ends with a nonempty `allResults`, `loop`
returns the result assembled from the last record. -/
theorem loop_eq_some (s : RalphLoopAgentSettings) (env : Env) (prompt : String)
    (last : GenResult)
    (hlast : (loopRun s env prompt).allResults.getLast? = some last) :
    loop s env prompt = some
      { text := last.text, iterations := (loopRun s env prompt).iteration
        completionReason := (loopRun s env prompt).completionReason
        reason := (loopRun s env prompt).reason
        result := last, allResults := (loopRun s env prompt).allResults } := by
  simp only [loop]
  rw [hlast]

/-- Packaging lemma: when the run ends with an empty `allResults`, `loop`
produces no result (the source throws reading the last record). -/
theorem loop_eq_none (s : RalphLoopAgentSettings) (env : Env) (prompt : String)
    (hlast : (loopRun s env prompt).allResults.getLast? = none) :
    loop s env prompt = none := by
  simp only [loop]
  rw [hlast]

/-- Inversion: any result returned by `loop` is assembled from the final
run state and the last element of `allResults`. -/
theorem loop_some_inv (s : RalphLoopAgentSettings) (env : Env) (prompt : String)
    (out : RalphLoopAgentResult) (h : loop s env prompt = some out) :
    (loopRun s env prompt).allResults.getLast? = some out.result ∧
    out.iterations = (loopRun s env prompt).iteration ∧
    out.completionReason = (loopRun s env prompt).completionReason ∧
    out.reason = (loopRun s env prompt).reason ∧
    out.allResults = (loopRun s env prompt).allResults := by
  simp only [loop] at h
  rcases hlast : (loopRun s env prompt).allResults.getLast? with _ | fr
  · rw [hlast] at h; cases h
  · rw [hlast] at h
    simp only [Option.some.injEq] at h
    subst h
    exact ⟨rfl, rfl, rfl, rfl, rfl⟩

/-- Without a verification predicate and without cancellation, the blocking
loop consumes all its fuel: one engine call per unit of fuel, final reason
`max-iterations`. -/
theorem loopGo_no_verify (s : RalphLoopAgentSettings) (env : Env) (prompt : String)
    (sys : List Message) (initMsg : Message)
    (hv : s.verifyCompletion = none) (hab : ∀ i, env.aborted i = false) (fuel : Nat) :
    ∀ rs cls cur it,
      (loopGo s env prompt sys initMsg fuel rs cls cur it).completionReason =
        CompletionReason.maxIterations ∧
      (loopGo s env prompt sys initMsg fuel rs cls cur it).iteration = it + fuel ∧
      (loopGo s env prompt sys initMsg fuel rs cls cur it).calls.length =
        cls.length + fuel ∧
      (loopGo s env prompt sys initMsg fuel rs cls cur it).allResults.length =
        rs.length + fuel := by
  induction fuel with
  | zero => intro rs cls cur it; simp [loopGo_zero]
  | succ m ih =>
      intro rs cls cur it
      rw [loopGo_step_none s env prompt sys initMsg m rs cls cur it _ _ rfl rfl
        (hab it) hv]
      refine ⟨(ih _ _ _ _).1, ?_, ?_, ?_⟩
      · rw [(ih _ _ _ _).2.1]; omega
      · rw [(ih _ _ _ _).2.2.1]; simp only [List.length_append, List.length_singleton]
        omega
      · rw [(ih _ _ _ _).2.2.2]; simp only [List.length_append, List.length_singleton]
        omega

/-- C1: for every iteration budget N ≥ 1, a blocking `loop()` invocation
configured with no verification predicate, with no cancellation signaled and
every engine call succeeding, performs exactly N engine calls and returns a
result with `completionReason = max-iterations` (in particular it never
reports `verified`). -/
theorem C1_loop_no_verify_max_iterations (s : RalphLoopAgentSettings) (env : Env)
    (prompt : String)
    (hN : 1 ≤ maxIterations s)
    (hv : s.verifyCompletion = none)
    (hab : ∀ i, env.aborted i = false) :
    (loopRun s env prompt).calls.length = maxIterations s ∧
    ∃ out, loop s env prompt = some out ∧
      out.completionReason = CompletionReason.maxIterations ∧
      out.completionReason ≠ CompletionReason.verified ∧
      out.iterations = maxIterations s ∧
      out.allResults.length = maxIterations s := by
  obtain ⟨hcr, hit, hcalls, hrs⟩ := loopGo_no_verify s env prompt
    (buildSystemMessages s) (initialUserMessage prompt) hv hab (maxIterations s)
    [] [] [] 0
  have hcalls0 : (loopRun s env prompt).calls.length = maxIterations s := by
    simpa [loopRun] using hcalls
  have hrs0 : (loopRun s env prompt).allResults.length = maxIterations s := by
    simpa [loopRun] using hrs
  have hcr0 : (loopRun s env prompt).completionReason =
      CompletionReason.maxIterations := by simpa [loopRun] using hcr
  have hit0 : (loopRun s env prompt).iteration = maxIterations s := by
    simpa [loopRun] using hit
  refine ⟨hcalls0, ?_⟩
  have hne : (loopRun s env prompt).allResults ≠ [] := by
    intro h
    rw [h] at hrs0
    simp only [List.length_nil] at hrs0
    omega
  obtain ⟨last, hlast⟩ : ∃ x, (loopRun s env prompt).allResults.getLast? = some x :=
    ⟨_, List.getLast?_eq_getLast_of_ne_nil hne⟩
  refine ⟨_, loop_eq_some s env prompt last hlast, ?_, ?_, ?_, ?_⟩
  · show (loopRun s env prompt).completionReason = _
    exact hcr0
  · show (loopRun s env prompt).completionReason ≠ _
    rw [hcr0]
    decide
  · show (loopRun s env prompt).iteration = _
    exact hit0
  · show (loopRun s env prompt).allResults.length = _
    exact hrs0

/-- Witness for C1 at a concrete configuration: budget 3, no verification
predicate, no cancellation. -/
theorem C1_witness :
    1 ≤ maxIterations exSettings ∧
    ((loopRun exSettings exEnv "task").calls.length = maxIterations exSettings ∧
    ∃ out, loop exSettings exEnv "task" = some out ∧
      out.completionReason = CompletionReason.maxIterations ∧
      out.completionReason ≠ CompletionReason.verified ∧
      out.iterations = maxIterations exSettings ∧
      out.allResults.length = maxIterations exSettings) :=
  ⟨by decide,
    C1_loop_no_verify_max_iterations exSettings exEnv "task" (by decide) rfl
      (fun i => rfl)⟩

/-- With a predicate that completes exactly at iteration k (and not
before), the blocking loop stops at k: `verified`, iteration counter k, the
predicate's reason surfaced, and one engine call per iteration up to k. -/
theorem loopGo_verified (s : RalphLoopAgentSettings) (env : Env) (prompt : String)
    (sys : List Message) (initMsg : Message)
    (v : VerifyCompletionInput → VerifyCompletionResult) (k : Nat) (r : Option String)
    (hv : s.verifyCompletion = some v)
    (hab : ∀ i, env.aborted i = false)
    (hcomplete : ∀ inp, inp.iteration = k → v inp = { complete := true, reason := r })
    (hbefore : ∀ inp, inp.iteration < k → (v inp).complete = false)
    (fuel : Nat) :
    ∀ rs cls cur it, it < k → k ≤ it + fuel →
      (loopGo s env prompt sys initMsg fuel rs cls cur it).completionReason =
        CompletionReason.verified ∧
      (loopGo s env prompt sys initMsg fuel rs cls cur it).iteration = k ∧
      (loopGo s env prompt sys initMsg fuel rs cls cur it).reason = r ∧
      (loopGo s env prompt sys initMsg fuel rs cls cur it).calls.length =
        cls.length + (k - it) ∧
      (loopGo s env prompt sys initMsg fuel rs cls cur it).allResults.length =
        rs.length + (k - it) := by
  induction fuel with
  | zero => intro rs cls cur it h1 h2; omega
  | succ m ih =>
      intro rs cls cur it h1 h2
      set inp := blockingInputs s (buildIterationMessages sys initMsg cur (it + 1))
        with hinp
      set res := env.engine it inp with hres
      by_cases hk : it + 1 = k
      · have hc : (v ⟨res, it + 1, rs ++ [res], prompt⟩).complete = true := by
          rw [hcomplete _ hk]
        rw [loopGo_step_verified s env prompt sys initMsg m rs cls cur it v inp res
          hinp hres (hab it) hv hc]
        refine ⟨rfl, hk, ?_, ?_, ?_⟩
        · show (v ⟨res, it + 1, rs ++ [res], prompt⟩).reason = r
          rw [hcomplete _ hk]
        · show (cls ++ [({ conv := cur, inputs := inp } : CallRecord)]).length = _
          simp only [List.length_append, List.length_singleton]
          omega
        · show (rs ++ [res]).length = _
          simp only [List.length_append, List.length_singleton]
          omega
      · have hlt : it + 1 < k := by omega
        have hc : (v ⟨res, it + 1, rs ++ [res], prompt⟩).complete = false :=
          hbefore _ hlt
        rw [loopGo_step_continue s env prompt sys initMsg m rs cls cur it v inp res
          hinp hres (hab it) hv hc]
        obtain ⟨a, b, c, d, e⟩ := ih _ _ _ _ hlt (by omega)
        refine ⟨a, b, c, ?_, ?_⟩
        · rw [d]; simp only [List.length_append, List.length_singleton]; omega
        · rw [e]; simp only [List.length_append, List.length_singleton]; omega

/-- C2: if the verification predicate returns `complete: true` (with reason
r) on iteration k ≤ N and not before, the blocking invocation makes exactly
k engine calls and returns `completionReason = verified`, `iterations = k`,
and the predicate's reason string. -/
theorem C2_loop_verified_at_k (s : RalphLoopAgentSettings) (env : Env)
    (prompt : String) (v : VerifyCompletionInput → VerifyCompletionResult)
    (k : Nat) (r : Option String)
    (hv : s.verifyCompletion = some v)
    (hk1 : 1 ≤ k) (hkN : k ≤ maxIterations s)
    (hab : ∀ i, env.aborted i = false)
    (hcomplete : ∀ inp, inp.iteration = k → v inp = { complete := true, reason := r })
    (hbefore : ∀ inp, inp.iteration < k → (v inp).complete = false) :
    (loopRun s env prompt).calls.length = k ∧
    ∃ out, loop s env prompt = some out ∧
      out.completionReason = CompletionReason.verified ∧
      out.iterations = k ∧
      out.reason = r ∧
      out.allResults.length = k := by
  obtain ⟨hcr, hit, hr, hcalls, hrs⟩ := loopGo_verified s env prompt
    (buildSystemMessages s) (initialUserMessage prompt) v k r hv hab hcomplete
    hbefore (maxIterations s) [] [] [] 0 (by omega) (by omega)
  have hcalls0 : (loopRun s env prompt).calls.length = k := by
    simpa [loopRun] using hcalls
  have hrs0 : (loopRun s env prompt).allResults.length = k := by
    simpa [loopRun] using hrs
  have hcr0 : (loopRun s env prompt).completionReason = CompletionReason.verified := by
    simpa [loopRun] using hcr
  have hit0 : (loopRun s env prompt).iteration = k := by simpa [loopRun] using hit
  have hr0 : (loopRun s env prompt).reason = r := by simpa [loopRun] using hr
  refine ⟨hcalls0, ?_⟩
  have hne : (loopRun s env prompt).allResults ≠ [] := by
    intro h
    rw [h] at hrs0
    simp only [List.length_nil] at hrs0
    omega
  obtain ⟨last, hlast⟩ : ∃ x, (loopRun s env prompt).allResults.getLast? = some x :=
    ⟨_, List.getLast?_eq_getLast_of_ne_nil hne⟩
  refine ⟨_, loop_eq_some s env prompt last hlast, ?_, ?_, ?_, ?_⟩
  · show (loopRun s env prompt).completionReason = _
    exact hcr0
  · show (loopRun s env prompt).iteration = _
    exact hit0
  · show (loopRun s env prompt).reason = _
    exact hr0
  · show (loopRun s env prompt).allResults.length = _
    exact hrs0

/-- Witness for C2 at a concrete configuration: budget 5, predicate
completing at iteration 2 with reason "done". -/
theorem C2_witness :
    1 ≤ 2 ∧ 2 ≤ maxIterations exVerifySettings ∧
    ((loopRun exVerifySettings exEnv "task").calls.length = 2 ∧
    ∃ out, loop exVerifySettings exEnv "task" = some out ∧
      out.completionReason = CompletionReason.verified ∧
      out.iterations = 2 ∧
      out.reason = some "done" ∧
      out.allResults.length = 2) :=
  ⟨by decide, by decide,
    C2_loop_verified_at_k exVerifySettings exEnv "task" exVerify 2 (some "done") rfl
      (by decide) (by decide) (fun i => rfl)
      (fun inp h => by simp [exVerify, h])
      (fun inp h => by
        have hne : inp.iteration ≠ 2 := by omega
        simp [exVerify, hne])⟩

/-- `loopRun` unfolded to its defining `loopGo` application. -/
theorem loopRun_eq (s : RalphLoopAgentSettings) (env : Env) (prompt : String) :
    loopRun s env prompt = loopGo s env prompt (buildSystemMessages s)
      (initialUserMessage prompt) (maxIterations s) [] [] [] 0 := rfl

/-- C3 counterexample: with the abort signal set before any iteration, the
source's `loop()` does not return a LoopResult at all — `allResults` is
empty and reading its last element fails — contradicting the claim that a
LoopResult with `completionReason = aborted` is returned.  Budget 3, no
verification predicate, abort signal set from the start. -/
theorem C3_counterexample :
    (loopRun exSettings exEnvAborted "task").calls.length = 0 ∧
    loop exSettings exEnvAborted "task" = none := by
  decide

/-- C3 (amended): when cancellation is signaled before any iteration starts
(and the budget is at least 1), a blocking `loop()` invocation makes zero
engine calls and the loop exits with `completionReason = aborted`, but
`loop()` then fails while assembling the LoopResult (it reads the last
element of the empty `allResults`), so no LoopResult is returned. -/
theorem C3_loop_preAborted_no_result (s : RalphLoopAgentSettings) (env : Env)
    (prompt : String)
    (hN : 1 ≤ maxIterations s) (hab : env.aborted 0 = true) :
    (loopRun s env prompt).calls.length = 0 ∧
    (loopRun s env prompt).completionReason = CompletionReason.aborted ∧
    loop s env prompt = none := by
  obtain ⟨m, hm⟩ : ∃ m, maxIterations s = m + 1 := ⟨maxIterations s - 1, by omega⟩
  have h : loopRun s env prompt =
      { allResults := [], currentMessages := [], iteration := 0
        completionReason := CompletionReason.aborted, reason := none, calls := [] } := by
    unfold loopRun
    rw [hm]
    exact loopGo_abort _ _ _ _ _ _ _ _ _ _ hab
  refine ⟨by rw [h]; rfl, by rw [h], loop_eq_none s env prompt (by rw [h]; rfl)⟩

/-- Witness for the amended C3 at a concrete configuration. -/
theorem C3_witness :
    1 ≤ maxIterations exSettings ∧ exEnvAborted.aborted 0 = true ∧
    ((loopRun exSettings exEnvAborted "task").calls.length = 0 ∧
    (loopRun exSettings exEnvAborted "task").completionReason =
      CompletionReason.aborted ∧
    loop exSettings exEnvAborted "task" = none) :=
  ⟨by decide, rfl,
    C3_loop_preAborted_no_result exSettings exEnvAborted "task" (by decide) rfl⟩

/-- C9: whenever `loop()` returns a result, its `iterations` field equals
`allResults.length`, and its `result` field is the last element of
`allResults`. -/
theorem C9_loop_result_consistency (s : RalphLoopAgentSettings) (env : Env)
    (prompt : String) (out : RalphLoopAgentResult)
    (h : loop s env prompt = some out) :
    out.iterations = out.allResults.length ∧
    out.allResults.getLast? = some out.result := by
  obtain ⟨hlast, hits, hcr, hr, hall⟩ := loop_some_inv s env prompt out h
  obtain ⟨ars, acs, h1, h2, h3, h4, h5⟩ := loopGo_extends s env prompt
    (buildSystemMessages s) (initialUserMessage prompt) (maxIterations s) [] [] [] 0
  have hiter : (loopRun s env prompt).iteration =
      (loopRun s env prompt).allResults.length := by
    rw [loopRun_eq, h5, h1]
    simp [h3]
  constructor
  · rw [hits, hall, hiter]
  · rw [hall]
    exact hlast

/-- Witness for C9 at a concrete run (budget 3, no verification). -/
theorem C9_witness :
    ((loop exSettings exEnv "task").getD default).iterations =
      ((loop exSettings exEnv "task").getD default).allResults.length ∧
    ((loop exSettings exEnv "task").getD default).allResults.getLast? =
      some ((loop exSettings exEnv "task").getD default).result :=
  C9_loop_result_consistency exSettings exEnv "task" _ (by decide)

/-- C5: in blocking mode `allResults` has exactly one record per completed
engine call: its length equals the number of engine calls made, the i-th
record is the result of the i-th engine call (so index 0 is the first
iteration's record), and from any intermediate state the loop only ever
appends to `allResults`. -/
theorem C5_allResults_per_call (s : RalphLoopAgentSettings) (env : Env)
    (prompt : String) :
    (loopRun s env prompt).allResults.length = (loopRun s env prompt).calls.length ∧
    (∀ i, (loopRun s env prompt).allResults[i]? =
      ((loopRun s env prompt).calls[i]?).map (fun c => env.engine i c.inputs)) ∧
    (∀ fuel rs cls cur it, ∃ ext,
      (loopGo s env prompt (buildSystemMessages s) (initialUserMessage prompt) fuel
        rs cls cur it).allResults = rs ++ ext) := by
  refine ⟨?_, ?_, ?_⟩
  · obtain ⟨ars, acs, h1, h2, h3, h4, h5⟩ := loopGo_extends s env prompt
      (buildSystemMessages s) (initialUserMessage prompt) (maxIterations s) [] [] [] 0
    rw [loopRun_eq, h1, h2]
    simp [h3]
  · intro i
    exact loopGo_results s env prompt (buildSystemMessages s)
      (initialUserMessage prompt) (maxIterations s) [] [] [] 0 rfl rfl
      (fun j => rfl) i
  · intro fuel rs cls cur it
    obtain ⟨ars, acs, h1, h2, h3, h4, h5⟩ := loopGo_extends s env prompt
      (buildSystemMessages s) (initialUserMessage prompt) fuel rs cls cur it
    exact ⟨ars, h1⟩

/-- A truthy (non-empty) verification reason appends exactly one feedback
message. -/
theorem appendFeedback_some (cur : List Message) (r : String) (hr : r ≠ "") :
    appendFeedback cur (some r) = cur ++ [feedbackMessage r] := by
  simp [appendFeedback, hr]

/-- C6: when the verification predicate returns `complete: false` with a
non-empty reason r on an iteration, both loops continue with the
conversation extended by the iteration's response messages followed by the
user-role message "Feedback: r", and the next iteration's outbound message
list (built at the incremented iteration number) carries the accumulated
history, the feedback message, and then the continuation directive — so the
next engine call sees the feedback. -/
theorem C6_feedback_injected (s : RalphLoopAgentSettings) (env : Env)
    (prompt : String) (sys : List Message) (initMsg : Message) (m : Nat)
    (rs : List GenResult) (cls : List CallRecord) (cur : List Message) (it : Nat)
    (v : VerifyCompletionInput → VerifyCompletionResult) (r : String)
    (res : GenResult)
    (hv : s.verifyCompletion = some v)
    (hab : env.aborted it = false)
    (hres : res = env.engine it
      (blockingInputs s (buildIterationMessages sys initMsg cur (it + 1))))
    (hver : v ⟨res, it + 1, rs ++ [res], prompt⟩ =
      { complete := false, reason := some r })
    (hr : r ≠ "") :
    loopGo s env prompt sys initMsg (m + 1) rs cls cur it =
      loopGo s env prompt sys initMsg m (rs ++ [res])
        (cls ++ [{ conv := cur
                   inputs := blockingInputs s
                     (buildIterationMessages sys initMsg cur (it + 1)) }])
        (cur ++ res.responseMessages ++ [feedbackMessage r]) (it + 1) ∧
    streamGo s env prompt sys initMsg (m + 1) rs cls cur it =
      streamGo s env prompt sys initMsg m (rs ++ [res])
        (cls ++ [{ conv := cur
                   inputs := blockingInputs s
                     (buildIterationMessages sys initMsg cur (it + 1)) }])
        (cur ++ res.responseMessages ++ [feedbackMessage r]) (it + 1) ∧
    buildIterationMessages sys initMsg
        (cur ++ res.responseMessages ++ [feedbackMessage r]) (it + 2) =
      sys ++ [initMsg] ++ cur ++ res.responseMessages ++ [feedbackMessage r] ++
        [continuationMessage] ∧
    feedbackMessage r = { role := Role.user, content := "Feedback: " ++ r } := by
  have hcomp : (v ⟨res, it + 1, rs ++ [res], prompt⟩).complete = false := by
    rw [hver]
  have hreason : (v ⟨res, it + 1, rs ++ [res], prompt⟩).reason = some r := by
    rw [hver]
  refine ⟨?_, ?_, ?_, rfl⟩
  · rw [loopGo_step_continue s env prompt sys initMsg m rs cls cur it v _ res rfl
      hres hab hv hcomp, hreason, appendFeedback_some _ r hr]
  · rw [streamGo_step_continue s env prompt sys initMsg m rs cls cur it v _ res rfl
      hres hab hv hcomp, hreason, appendFeedback_some _ r hr]
  · rw [buildIterationMessages_eq]
    rw [if_pos (by omega)]
    simp [List.append_assoc]

/-- Witness for C6 at a concrete configuration: iteration 1 of
`exVerifySettings` (budget 5, predicate completing at iteration 2), whose
verification returns `complete: false` with reason "keep going". -/
theorem C6_witness :
    loopGo exVerifySettings exEnv "task" [] (initialUserMessage "task") 4 [] [] [] 0 =
      loopGo exVerifySettings exEnv "task" [] (initialUserMessage "task") 3
        [exEngine 0 (blockingInputs exVerifySettings
          (buildIterationMessages [] (initialUserMessage "task") [] 1))]
        [{ conv := []
           inputs := blockingInputs exVerifySettings
             (buildIterationMessages [] (initialUserMessage "task") [] 1) }]
        ((exEngine 0 (blockingInputs exVerifySettings
            (buildIterationMessages [] (initialUserMessage "task") [] 1))).responseMessages
          ++ [feedbackMessage "keep going"]) 1 :=
  (C6_feedback_injected exVerifySettings exEnv "task" [] (initialUserMessage "task")
    3 [] [] [] 0 exVerify "keep going" _ rfl rfl rfl (by decide) (by decide)).1

/-- Relation between a `stream()` invocation and its blocking phase:
the recorded calls, accumulated results and final conversation come from
the phase state, and the trace is the blocking calls in order followed by
the single streaming call. -/
theorem stream_cases (s : RalphLoopAgentSettings) (env : Env) (prompt : String) :
    (stream s env prompt).calls =
      (streamGo s env prompt (buildSystemMessages s) (initialUserMessage prompt)
        (maxIterations s - 1) [] [] [] 0).calls ∧
    (stream s env prompt).allResults =
      (streamGo s env prompt (buildSystemMessages s) (initialUserMessage prompt)
        (maxIterations s - 1) [] [] [] 0).allResults ∧
    (stream s env prompt).finalConv =
      (streamGo s env prompt (buildSystemMessages s) (initialUserMessage prompt)
        (maxIterations s - 1) [] [] [] 0).currentMessages ∧
    (stream s env prompt).trace =
      (stream s env prompt).calls.map (fun c => StreamEvent.blockingCall c.inputs) ++
        [StreamEvent.streamingCall (stream s env prompt).streamInputs] := by
  simp only [stream]
  split
  · next heq => rw [heq]; exact ⟨rfl, rfl, rfl, rfl⟩
  · next heq => rw [heq]; exact ⟨rfl, rfl, rfl, rfl⟩

/-- C4: for every budget N, a `stream()` invocation makes at most N − 1
blocking engine calls, then issues exactly one streaming engine call, which
is the last engine interaction of the run; `allResults` holds exactly one
record per blocking call, so the streamed call contributes nothing to
`allResults` (nor to the conversation, which only blocking calls extend). -/
theorem C4_stream_blocking_bounded (s : RalphLoopAgentSettings) (env : Env)
    (prompt : String) :
    (stream s env prompt).calls.length ≤ maxIterations s - 1 ∧
    (stream s env prompt).allResults.length = (stream s env prompt).calls.length ∧
    (stream s env prompt).trace =
      (stream s env prompt).calls.map (fun c => StreamEvent.blockingCall c.inputs) ++
        [StreamEvent.streamingCall (stream s env prompt).streamInputs] ∧
    (stream s env prompt).trace.countP (fun e => e.isStreaming) = 1 ∧
    (stream s env prompt).trace.getLast? =
      some (StreamEvent.streamingCall (stream s env prompt).streamInputs) := by
  obtain ⟨hcalls, hall, hconv, htrace⟩ := stream_cases s env prompt
  obtain ⟨ars, acs, h1, h2, h3, h4, h5⟩ := streamGo_extends s env prompt
    (buildSystemMessages s) (initialUserMessage prompt) (maxIterations s - 1)
    [] [] [] 0
  have hlen : (stream s env prompt).calls.length ≤ maxIterations s - 1 := by
    rw [hcalls, h2]
    simpa using h4
  have hleneq : (stream s env prompt).allResults.length =
      (stream s env prompt).calls.length := by
    rw [hcalls, hall, h1, h2]
    simpa using h3
  refine ⟨hlen, hleneq, htrace, ?_, ?_⟩
  · rw [htrace, List.countP_append, List.countP_map]
    have hz : List.countP ((fun e => StreamEvent.isStreaming e) ∘
        (fun c => StreamEvent.blockingCall c.inputs)) (stream s env prompt).calls = 0 := by
      apply List.countP_eq_zero.mpr
      intro a _
      simp [Function.comp, StreamEvent.isStreaming]
    rw [hz]
    simp [List.countP_cons, StreamEvent.isStreaming]
  · rw [htrace, List.getLast?_append]
    rfl


/-- Inversion for the early-completion phase: the streaming-call inputs
carried by `earlyStream` are always the early-completion inputs built from
the conversation at completion time (no continuation directive). -/
theorem streamGo_early_inputs (s : RalphLoopAgentSettings) (env : Env)
    (prompt : String) (sys : List Message) (initMsg : Message) (fuel : Nat) :
    ∀ rs cls cur it rs2 cls2 cur2 it2 inputs,
      streamGo s env prompt sys initMsg fuel rs cls cur it =
        StreamPhase.earlyStream rs2 cls2 cur2 it2 inputs →
      inputs = earlyStreamInputs s (sys ++ [initMsg] ++ cur2) := by
  induction fuel with
  | zero =>
      intro rs cls cur it rs2 cls2 cur2 it2 inputs h
      rw [streamGo_zero] at h
      cases h
  | succ m ih =>
      intro rs cls cur it rs2 cls2 cur2 it2 inputs h
      cases hab : env.aborted it with
      | true =>
          rw [streamGo_abort _ _ _ _ _ _ _ _ _ _ hab] at h
          cases h
      | false =>
          set inp := blockingInputs s (buildIterationMessages sys initMsg cur (it + 1))
            with hinp
          set res := env.engine it inp with hres
          rcases hv : s.verifyCompletion with _ | v
          · rw [streamGo_step_none s env prompt sys initMsg m rs cls cur it inp res
              hinp hres hab hv] at h
            exact ih _ _ _ _ _ _ _ _ _ h
          · cases hc : (v { result := res, iteration := it + 1, allResults := rs ++ [res]
                            originalPrompt := prompt }).complete with
            | true =>
                rw [streamGo_step_early s env prompt sys initMsg m rs cls cur it v inp
                  res hinp hres hab hv hc] at h
                injection h with ha hb hcc hd he
                subst he
                rw [hcc]
            | false =>
                rw [streamGo_step_continue s env prompt sys initMsg m rs cls cur it v
                  inp res hinp hres hab hv hc] at h
                exact ih _ _ _ _ _ _ _ _ _ h

/-- C7: for every engine-calling iteration of `loop()` or `stream()` (the
i-th recorded call carries iteration number i+1), the outbound message list
is the fixed system messages, then the single original-prompt user message,
then the accumulated conversation, and it ends with the fixed continuation
directive exactly when the iteration number exceeds 1; on the first
iteration the conversation is empty and no directive is appended.  The
final streamed iteration of `stream()` (the non-early case) obeys the same
rule at iteration number `calls.length + 1`. -/
theorem C7_message_list_shape (s : RalphLoopAgentSettings) (env : Env)
    (prompt : String) :
    (∀ i c, (loopRun s env prompt).calls[i]? = some c →
      c.inputs.messages =
        buildSystemMessages s ++ [initialUserMessage prompt] ++ c.conv ++
          (if 0 < i then [continuationMessage] else []) ∧
      (i = 0 → c.conv = [])) ∧
    (∀ i c, (stream s env prompt).calls[i]? = some c →
      c.inputs.messages =
        buildSystemMessages s ++ [initialUserMessage prompt] ++ c.conv ++
          (if 0 < i then [continuationMessage] else []) ∧
      (i = 0 → c.conv = [])) ∧
    ((stream s env prompt).early = false →
      (stream s env prompt).streamInputs.messages =
        buildSystemMessages s ++ [initialUserMessage prompt] ++
          (stream s env prompt).finalConv ++
          (if 0 < (stream s env prompt).calls.length then [continuationMessage]
            else [])) := by
  have hempty : ∀ (i : Nat) (c : CallRecord), ([] : List CallRecord)[i]? = some c →
      c.inputs.messages =
        buildSystemMessages s ++ [initialUserMessage prompt] ++ c.conv ++
          (if 0 < i then [continuationMessage] else []) ∧
      (i = 0 → c.conv = []) := by
    intro i c hc
    simp at hc
  refine ⟨?_, ?_, ?_⟩
  · intro i c hc
    rw [loopRun_eq] at hc
    exact loopGo_calls_shape s env prompt (buildSystemMessages s)
      (initialUserMessage prompt) (maxIterations s) [] [] [] 0 rfl (fun _ => rfl)
      hempty i c hc
  · intro i c hc
    rw [(stream_cases s env prompt).1] at hc
    exact streamGo_calls_shape s env prompt (buildSystemMessages s)
      (initialUserMessage prompt) (maxIterations s - 1) [] [] [] 0 rfl (fun _ => rfl)
      hempty i c hc
  · obtain ⟨ars, acs, h1, h2, h3, h4, h5⟩ := streamGo_extends s env prompt
      (buildSystemMessages s) (initialUserMessage prompt) (maxIterations s - 1)
      [] [] [] 0
    rcases hS : streamGo s env prompt (buildSystemMessages s)
        (initialUserMessage prompt) (maxIterations s - 1) [] [] [] 0 with
      ⟨rs2, cls2, cur2, itn, inputs⟩ | ⟨rs2, cls2, cur2, itn⟩
    · intro hearly
      simp only [stream] at hearly
      rw [hS] at hearly
      simp at hearly
    · intro _
      rw [hS] at h2 h5
      simp only [StreamPhase.calls, StreamPhase.iteration, List.nil_append,
        Nat.zero_add] at h2 h5
      have hlen : cls2.length = itn := by rw [h2, h5]
      simp only [stream]
      simp only [hS]
      show (finalStreamInputs s (buildIterationMessages (buildSystemMessages s)
        (initialUserMessage prompt) cur2 (itn + 1))).messages =
        buildSystemMessages s ++ [initialUserMessage prompt] ++ cur2 ++
          (if 0 < cls2.length then [continuationMessage] else [])
      show buildIterationMessages (buildSystemMessages s) (initialUserMessage prompt)
        cur2 (itn + 1) = _
      rw [buildIterationMessages_eq]
      simp [show (1 < itn + 1) ↔ (0 < cls2.length) from by omega]

/-- Witness for C7 at the first recorded call of a concrete blocking run:
its message list is the system messages followed by the prompt message,
with no continuation directive and an empty conversation snapshot. -/
theorem C7_witness :
    (buildIterationMessages (buildSystemMessages exSettings)
        (initialUserMessage "task") [] 1 =
      buildSystemMessages exSettings ++ [initialUserMessage "task"] ++ [] ++ []) ∧
    (0 = 0 → ([] : List Message) = []) :=
  (C7_message_list_shape exSettings exEnv "task").1 0
    { conv := []
      inputs := blockingInputs exSettings
        (buildIterationMessages (buildSystemMessages exSettings)
          (initialUserMessage "task") [] 1) }
    (by decide)

/-- C8 counterexample: the claim says streaming engine calls receive the
same inputs as blocking calls except that the step budget is not supplied;
but at a concrete configuration (budget 3, no predicate) the streaming call
issued by `stream()` differs from that description — the source passes
`stopWhen: toolStopWhen ?? stepCountIs(20)` to `streamText` as well. -/
theorem C8_counterexample :
    (stream exSettings exEnv "task").streamInputs ≠
      specStreamInputs exSettings
        (stream exSettings exEnv "task").streamInputs.messages := by
  decide

/-- C8 (amended): every streaming engine call receives the engine step
budget (`toolStopWhen`, defaulting to 20) exactly like a blocking call; the
final-iteration streaming call receives the same inputs as a blocking call
with its message list, while the early-completion streaming call passes
only model, messages, tools, toolChoice, the step budget, maxOutputTokens
and temperature (plus the abort signal), omitting the remaining sampling
and experimental settings. -/
theorem C8_stream_inputs (s : RalphLoopAgentSettings) (env : Env)
    (prompt : String) :
    (stream s env prompt).streamInputs.stopWhen = some (s.toolStopWhen.getD 20) ∧
    ((stream s env prompt).early = false →
      (stream s env prompt).streamInputs =
        blockingInputs s (stream s env prompt).streamInputs.messages) ∧
    ((stream s env prompt).early = true →
      (stream s env prompt).streamInputs =
        earlyStreamInputs s (stream s env prompt).streamInputs.messages) := by
  rcases hS : streamGo s env prompt (buildSystemMessages s)
      (initialUserMessage prompt) (maxIterations s - 1) [] [] [] 0 with
    ⟨rs2, cls2, cur2, itn, inputs⟩ | ⟨rs2, cls2, cur2, itn⟩
  · have hinputs := streamGo_early_inputs s env prompt (buildSystemMessages s)
      (initialUserMessage prompt) (maxIterations s - 1) [] [] [] 0 rs2 cls2 cur2
      itn inputs hS
    subst hinputs
    refine ⟨?_, ?_, fun _ => ?_⟩
    · simp only [stream]
      simp only [hS]
      rfl
    · intro hearly
      simp only [stream] at hearly
      simp only [hS] at hearly
      simp at hearly
    · simp only [stream]
      simp only [hS]
      rfl
  · refine ⟨?_, fun _ => ?_, ?_⟩
    · simp only [stream]
      simp only [hS]
      rfl
    · simp only [stream]
      simp only [hS]
      rfl
    · intro hearly
      simp only [stream] at hearly
      simp only [hS] at hearly
      simp at hearly

/-- Witness for C8 (amended) at a concrete non-early run: the streaming
call's inputs coincide with blocking-call inputs (step budget included). -/
theorem C8_witness :
    (stream exSettings exEnv "task").streamInputs.stopWhen = some 20 ∧
    (stream exSettings exEnv "task").streamInputs =
      blockingInputs exSettings
        (stream exSettings exEnv "task").streamInputs.messages :=
  ⟨(C8_stream_inputs exSettings exEnv "task").1,
    (C8_stream_inputs exSettings exEnv "task").2.1 (by decide)⟩

/-- C10: `stream()` has no aborted terminal state — for any environment the
run ends with exactly one streaming call (its handle is what the caller
receives).  When the abort signal is already set at the first check, zero
blocking engine calls are made, the streaming call is still issued, and its
message list is exactly the system messages followed by the original-prompt
message: no continuation directive, no feedback, no conversation. -/
theorem C10_stream_preAborted (s : RalphLoopAgentSettings) (env : Env)
    (prompt : String) (hab : env.aborted 0 = true) :
    (∀ env2 : Env, (stream s env2 prompt).trace.getLast? =
      some (StreamEvent.streamingCall (stream s env2 prompt).streamInputs)) ∧
    (stream s env prompt).calls = [] ∧
    (stream s env prompt).allResults = [] ∧
    (stream s env prompt).early = false ∧
    (stream s env prompt).iterations = 1 ∧
    (stream s env prompt).finalConv = [] ∧
    (stream s env prompt).streamInputs.messages =
      buildSystemMessages s ++ [initialUserMessage prompt] := by
  have hphase : streamGo s env prompt (buildSystemMessages s)
      (initialUserMessage prompt) (maxIterations s - 1) [] [] [] 0 =
      StreamPhase.budgetReached [] [] [] 0 := by
    cases hf : maxIterations s - 1 with
    | zero => exact streamGo_zero s env prompt _ _ _ _ _ _
    | succ m => exact streamGo_abort s env prompt _ _ m _ _ _ _ hab
  have hlaststream : ∀ env2 : Env, (stream s env2 prompt).trace.getLast? =
      some (StreamEvent.streamingCall (stream s env2 prompt).streamInputs) := by
    intro env2
    obtain ⟨hcalls, hall, hconv, htrace⟩ := stream_cases s env2 prompt
    rw [htrace, List.getLast?_append]
    rfl
  refine ⟨hlaststream, ?_, ?_, ?_, ?_, ?_, ?_⟩ <;>
    simp [stream, hphase, buildIterationMessages_eq, finalStreamInputs]

/-- Witness for C10 at a concrete configuration whose abort signal is set
from the start. -/
theorem C10_witness :
    exEnvAborted.aborted 0 = true ∧
    ((∀ env2 : Env, (stream exSettings env2 "task").trace.getLast? =
      some (StreamEvent.streamingCall (stream exSettings env2 "task").streamInputs)) ∧
    (stream exSettings exEnvAborted "task").calls = [] ∧
    (stream exSettings exEnvAborted "task").allResults = [] ∧
    (stream exSettings exEnvAborted "task").early = false ∧
    (stream exSettings exEnvAborted "task").iterations = 1 ∧
    (stream exSettings exEnvAborted "task").finalConv = [] ∧
    (stream exSettings exEnvAborted "task").streamInputs.messages =
      buildSystemMessages exSettings ++ [initialUserMessage "task"]) :=
  ⟨rfl, C10_stream_preAborted exSettings exEnvAborted "task" rfl⟩
